import Mathlib

/-!
Shallow embedding of the clipz gpui client (src/gpui-app/src/main.rs):
the protocol data model, the message decoding pipeline (`pump_messages`),
and the state reconciler on `ClipzApp` (`poll_backend`, `filtered`,
`select_entry`, `clear`, `remove`, `refresh_entries`).

Conventions of the embedding:
* Rust `usize` ids / indices become `Nat`; `i64` timestamps become `Int`.
* `SharedString` becomes `String`; `to_lowercase` is modelled per-character
  with `Char.toLower` over the string's character list.
* The backend handle is modelled by a `Bool` field `backend`
  (`Option BackendHandle` being `Some` or `None`); outgoing commands that
  the code submits to the command channel are returned as a `List String`
  in submission order.
* `poll_backend` receives the list of messages currently queued in the
  channel (what the successive `try_recv` calls drain), in arrival order.
-/

namespace Clipz

inductive EntryType where
  | text : EntryType
  | image : EntryType
  | file : EntryType
deriving DecidableEq, Repr

/-- One clipboard entry, as in `struct Entry` of main.rs. -/
structure Entry where
  id : Nat
  content : String
  timestamp : Int
  entry_type : EntryType
  is_current : Bool
deriving DecidableEq, Repr

/-- A decoded protocol line, as in `enum BackendMessage` of main.rs. -/
inductive BackendMessage where
  | Entries (data : List Entry) : BackendMessage
  | SelectSuccess (index : Nat) : BackendMessage
  | RemoveSuccess (index : Nat) : BackendMessage
  | Success (message : String) : BackendMessage
  | Ready : BackendMessage
  | Unknown : BackendMessage
deriving DecidableEq, Repr

/-- The client-side view state of `struct ClipzApp`: the backend handle
(present or not), the entries snapshot, the search text and the focused
index into the filtered view.  Rendering-only fields (focus handle, hotkey
manager, scroll position) are outside the verified core. -/
structure ClipzApp where
  backend : Bool
  entries : List Entry
  search : String
  focused_index : Option Nat
deriving DecidableEq, Repr

/-- Per-character lowercasing of a string, modelling `str::to_lowercase`. -/
def lowerChars (s : String) : List Char :=
  s.data.map Char.toLower

/-- `hay` contains `needle` as a contiguous substring, modelling
`str::contains` on the character lists. -/
def containsSub (hay needle : List Char) : Bool :=
  (List.range (hay.length + 1)).any (fun i => needle.isPrefixOf (hay.drop i))

/-- `ClipzApp::filtered`: the full snapshot when the search text is empty,
otherwise the entries whose lowercased content contains the lowercased
search text. -/
def filtered (s : ClipzApp) : List Entry :=
  if s.search.isEmpty then s.entries
  else
    let query := lowerChars s.search
    s.entries.filter (fun e => containsSub (lowerChars e.content) query)

/-- `ClipzApp::refresh_entries`: submit `get-entries` to the command
channel. -/
def refresh_entries : List String :=
  ["get-entries"]

/-- The `BackendMessage::Entries` arm of `ClipzApp::poll_backend`: replace
the snapshot wholesale, then clamp `focused_index` if it fell out of the
filtered view. -/
def applyEntries (s : ClipzApp) (data : List Entry) : ClipzApp :=
  let s1 := { s with entries := data }
  match s1.focused_index with
  | none => s1
  | some idx =>
    let f := filtered s1
    if idx ≥ f.length then
      { s1 with focused_index := if f.isEmpty then none else some (f.length - 1) }
    else s1

/-- One iteration of the drain loop in `ClipzApp::poll_backend`: the new
state and the commands submitted while handling the message. -/
def applyMessage (s : ClipzApp) : BackendMessage → ClipzApp × List String
  | .Entries data => (applyEntries s data, [])
  | .SelectSuccess _ => (s, refresh_entries)
  | .RemoveSuccess _ => (s, refresh_entries)
  | .Success _ => (s, refresh_entries)
  | .Ready => (s, refresh_entries)
  | .Unknown => (s, [])

/-- The loop body of the drain in `ClipzApp::poll_backend`, on the pair
of current state and commands submitted so far. -/
def pollStep (acc : ClipzApp × List String) (m : BackendMessage) :
    ClipzApp × List String :=
  let r := applyMessage acc.1 m
  (r.1, acc.2 ++ r.2)

/-- `ClipzApp::poll_backend`: with a backend attached, drain the queued
messages in arrival order, applying each; return the new state, the
commands submitted, and the `updated` flag. -/
def poll_backend (s : ClipzApp) (msgs : List BackendMessage) :
    ClipzApp × List String × Bool :=
  if s.backend then
    let res := msgs.foldl pollStep (s, [])
    (res.1, res.2, !msgs.isEmpty)
  else (s, [], false)

/-- `ClipzApp::select_entry`: with a backend attached, set `is_current` on
the matching entry and clear it elsewhere, then send `select-entry:<id>`
and refresh. -/
def select_entry (s : ClipzApp) (id : Nat) : ClipzApp × List String :=
  if s.backend then
    ({ s with entries := s.entries.map (fun e => { e with is_current := e.id == id }) },
     ("select-entry:" ++ toString id) :: refresh_entries)
  else (s, [])

/-- `ClipzApp::clear`: with a backend attached, collapse the snapshot to
the first entry flagged current (or to empty), then send `clear` and
refresh. -/
def clear (s : ClipzApp) : ClipzApp × List String :=
  if s.backend then
    (match s.entries.find? (fun e => e.is_current) with
      | some current => { s with entries := [current] }
      | none => { s with entries := [] },
     "clear" :: refresh_entries)
  else (s, [])

/-- `ClipzApp::remove`: with a backend attached, retain the entries whose
id differs, then send `remove-entry:<id>` and refresh. -/
def remove (s : ClipzApp) (id : Nat) : ClipzApp × List String :=
  if s.backend then
    ({ s with entries := s.entries.filter (fun e => e.id != id) },
     ("remove-entry:" ++ toString id) :: refresh_entries)
  else (s, [])

/-- The `focusedIndex` invariant: absent, or strictly inside the filtered
view. -/
def focusOk (s : ClipzApp) : Bool :=
  match s.focused_index with
  | none => true
  | some idx => decide (idx < (filtered s).length)

/-- An optimistic UI mutation: one of the three user-triggered operations
of the reconciler. -/
inductive UiOp where
  | sel (id : Nat) : UiOp
  | rem (id : Nat) : UiOp
  | clr : UiOp
deriving DecidableEq, Repr

/-- One event of an execution history: a user action applied immediately,
or a backend message arriving in the channel queue. -/
inductive Event where
  | act (o : UiOp) : Event
  | push (m : BackendMessage) : Event
deriving DecidableEq, Repr

/-- The state change of one optimistic mutation (its commands dropped). -/
def applyOp (s : ClipzApp) : UiOp → ClipzApp
  | .sel id => (select_entry s id).1
  | .rem id => (remove s id).1
  | .clr => (clear s).1

/-- The messages an event history leaves queued in the channel, in arrival
order. -/
def pendingMessages (evs : List Event) : List BackendMessage :=
  evs.filterMap (fun e => match e with
    | .push m => some m
    | .act _ => none)

/-- The state change of one event: user actions apply at once, pushes
only queue. -/
def eventStep (s : ClipzApp) : Event → ClipzApp
  | .act o => applyOp s o
  | .push _ => s

/-- Run a history: apply each user action as it happens (pushes only
queue), then let `poll_backend` drain every queued message. -/
def runEvents (s : ClipzApp) (evs : List Event) : ClipzApp :=
  (poll_backend (evs.foldl eventStep s) (pendingMessages evs)).1

/-- Fold the `Entries` payloads of a message queue over a starting value:
the last payload wins, the start survives a queue with none. -/
def lastEntriesFrom (a : Option (List Entry)) (msgs : List BackendMessage) :
    Option (List Entry) :=
  msgs.foldl (fun a m => match m with
    | .Entries d => some d
    | _ => a) a

/-- The payload of the last `Entries` message of a queue, if any. -/
def lastEntriesPayload (msgs : List BackendMessage) : Option (List Entry) :=
  lastEntriesFrom none msgs

/-- The commands handling one message submits: the four confirmation
messages trigger a refresh, `Entries` and `Unknown` submit nothing. -/
def refreshCmds : BackendMessage → List String
  | .Entries _ => []
  | .Unknown => []
  | _ => refresh_entries

/-! ## The message channel: JSON decoding and the reader pump

`pump_messages` reads the backend's stdout line by line and decodes each
line independently with `serde_json::from_str::<BackendMessage>`.  The
JSON value model and the decoding rules below mirror the `serde` derive
attributes on `BackendMessage` and `Entry`: the enum is internally tagged
by the `"type"` field, an unrecognized tag decodes to the `Unknown`
catch-all (`#[serde(other)]`), `Entry` reads its fields by name in any
order ignoring unknown fields, with `entry_type` defaulting to `Text` and
`is_current` to `false`. -/

/-- A JSON value (the integer-numeric fragment the protocol uses). -/
inductive Json where
  | null : Json
  | bool (b : Bool) : Json
  | num (n : Int) : Json
  | str (s : String) : Json
  | arr (xs : List Json) : Json
  | obj (fields : List (String × Json)) : Json

/-- Field lookup on a JSON object; `none` on other values. -/
def Json.getField (j : Json) (key : String) : Option Json :=
  match j with
  | .obj fields => (fields.find? (fun kv => kv.1 == key)).map (fun kv => kv.2)
  | _ => none

/-- Skip JSON whitespace. -/
def skipWs : List Char → List Char
  | c :: cs =>
    if c = ' ' ∨ c = '\t' ∨ c = '\n' ∨ c = '\r' then skipWs cs else c :: cs
  | [] => []

/-- Read a string body up to the closing quote, with basic escapes. -/
def parseStringAux (acc : List Char) : List Char → Option (String × List Char)
  | [] => none
  | '\\' :: c :: rest =>
    let e := if c = 'n' then '\n' else if c = 't' then '\t'
             else if c = 'r' then '\r' else c
    parseStringAux (acc ++ [e]) rest
  | '"' :: rest => some (String.mk acc, rest)
  | c :: rest => parseStringAux (acc ++ [c]) rest

/-- Read a run of decimal digits. -/
def parseDigits (acc : Nat) : List Char → Nat × List Char
  | c :: cs => if c.isDigit then parseDigits (acc * 10 + (c.toNat - 48)) cs else (acc, c :: cs)
  | [] => (acc, [])

mutual

/-- Parse one JSON value (fuel-indexed recursion). -/
def parseValue : Nat → List Char → Option (Json × List Char)
  | 0, _ => none
  | fuel + 1, cs =>
    match skipWs cs with
    | [] => none
    | c :: rest =>
      if c = '\x7b' then
        match skipWs rest with
        | '\x7d' :: rest2 => some (.obj [], rest2)
        | rest2 => (parseObjFields fuel rest2).map (fun r => (.obj r.1, r.2))
      else if c = '[' then
        match skipWs rest with
        | ']' :: rest2 => some (.arr [], rest2)
        | rest2 => (parseArrItems fuel rest2).map (fun r => (.arr r.1, r.2))
      else if c = '"' then
        (parseStringAux [] rest).map (fun r => (.str r.1, r.2))
      else if c = 't' then
        match rest with
        | 'r' :: 'u' :: 'e' :: rest2 => some (.bool true, rest2)
        | _ => none
      else if c = 'f' then
        match rest with
        | 'a' :: 'l' :: 's' :: 'e' :: rest2 => some (.bool false, rest2)
        | _ => none
      else if c = 'n' then
        match rest with
        | 'u' :: 'l' :: 'l' :: rest2 => some (.null, rest2)
        | _ => none
      else if c = '-' then
        match rest with
        | d :: rest2 =>
          if d.isDigit then
            let r := parseDigits (d.toNat - 48) rest2
            some (.num (-(r.1 : Int)), r.2)
          else none
        | [] => none
      else if c.isDigit then
        let r := parseDigits (c.toNat - 48) rest
        some (.num (r.1 : Int), r.2)
      else none

/-- Parse the comma-separated items of a non-empty JSON array. -/
def parseArrItems : Nat → List Char → Option (List Json × List Char)
  | 0, _ => none
  | fuel + 1, cs =>
    match parseValue fuel cs with
    | none => none
    | some (v, rest) =>
      match skipWs rest with
      | ',' :: rest2 =>
        (parseArrItems fuel rest2).map (fun r => (v :: r.1, r.2))
      | ']' :: rest2 => some ([v], rest2)
      | _ => none

/-- Parse the comma-separated fields of a non-empty JSON object. -/
def parseObjFields : Nat → List Char → Option (List (String × Json) × List Char)
  | 0, _ => none
  | fuel + 1, cs =>
    match skipWs cs with
    | '"' :: rest =>
      match parseStringAux [] rest with
      | none => none
      | some (key, rest2) =>
        match skipWs rest2 with
        | ':' :: rest3 =>
          match parseValue fuel rest3 with
          | none => none
          | some (v, rest4) =>
            match skipWs rest4 with
            | ',' :: rest5 =>
              (parseObjFields fuel rest5).map (fun r => ((key, v) :: r.1, r.2))
            | '\x7d' :: rest5 => some ([(key, v)], rest5)
            | _ => none
        | _ => none
    | _ => none

end

/-- Parse a whole line as one JSON value (`serde_json::from_str` demands
full consumption up to trailing whitespace). -/
def Json.parse (s : String) : Option Json :=
  match parseValue (s.length + 1) s.data with
  | some (v, rest) => if skipWs rest = [] then some v else none
  | none => none

/-- Decode the `EntryType` enum: lowercase variant names. -/
def decodeEntryType : Json → Option EntryType
  | .str s =>
    if s = "text" then some .text
    else if s = "image" then some .image
    else if s = "file" then some .file
    else none
  | _ => none

/-- Decode one `Entry` object: `id`, `content`, `timestamp` required,
`type` defaulting to text, `isCurrent` defaulting to false; unknown
fields ignored, field order irrelevant. -/
def decodeEntry (j : Json) : Option Entry :=
  match j with
  | .obj _ => do
    let id ← match j.getField "id" with
      | some (.num n) => if 0 ≤ n then some n.toNat else none
      | _ => none
    let content ← match j.getField "content" with
      | some (.str s) => some s
      | _ => none
    let ts ← match j.getField "timestamp" with
      | some (.num n) => some n
      | _ => none
    let et ← match j.getField "type" with
      | none => some EntryType.text
      | some v => decodeEntryType v
    let cur ← match j.getField "isCurrent" with
      | none => some false
      | some (.bool b) => some b
      | some _ => none
    some ⟨id, content, ts, et, cur⟩
  | _ => none

/-- Decode one `BackendMessage` from a JSON value: internally tagged by
the string field `"type"`; a recognized tag reads its payload fields, any
other tag is the `Unknown` catch-all, and a missing or non-string tag is
a decode failure. -/
def decodeMessage (j : Json) : Option BackendMessage :=
  match j.getField "type" with
  | some (.str tag) =>
    if tag = "entries" then
      match j.getField "data" with
      | some (.arr xs) => (xs.mapM decodeEntry).map BackendMessage.Entries
      | _ => none
    else if tag = "select-success" then
      match j.getField "index" with
      | some (.num n) => if 0 ≤ n then some (.SelectSuccess n.toNat) else none
      | _ => none
    else if tag = "remove-success" then
      match j.getField "index" with
      | some (.num n) => if 0 ≤ n then some (.RemoveSuccess n.toNat) else none
      | _ => none
    else if tag = "success" then
      match j.getField "message" with
      | some (.str m) => some (.Success m)
      | _ => none
    else if tag = "ready" then some .Ready
    else some .Unknown
  | _ => none

/-- Decode one protocol line, modelling
`serde_json::from_str::<BackendMessage>(&line)`. -/
def decodeLine (line : String) : Option BackendMessage :=
  (Json.parse line).bind decodeMessage

/-- One read from the buffered line reader: a line, or an I/O error. -/
inductive LineResult where
  | ok (line : String) : LineResult
  | err : LineResult
deriving Repr

/-- `pump_messages`: read lines in order; a line that decodes is delivered
to the channel, a line that fails to decode is dropped, a read error ends
the reader.  Returns the messages delivered, in order. -/
def pump_messages : List LineResult → List BackendMessage
  | [] => []
  | .ok line :: rest =>
    match decodeLine line with
    | some msg => msg :: pump_messages rest
    | none => pump_messages rest
  | .err :: _ => []

/-! ## Supporting lemmas -/

theorem containsSub_iff (hay needle : List Char) :
    containsSub hay needle = true ↔ ∃ pre post, hay = pre ++ needle ++ post := by
  unfold containsSub
  rw [List.any_eq_true]
  constructor
  · rintro ⟨i, _, hp⟩
    rw [List.isPrefixOf_iff_prefix] at hp
    obtain ⟨t, ht⟩ := hp
    exact ⟨hay.take i, t, by rw [List.append_assoc, ht, List.take_append_drop]⟩
  · rintro ⟨pre, post, rfl⟩
    refine ⟨pre.length, ?_, ?_⟩
    · rw [List.mem_range]
      have h := List.length_append (pre ++ needle) post
      have h2 := List.length_append pre needle
      omega
    · rw [List.isPrefixOf_iff_prefix, List.append_assoc, List.drop_left]
      exact List.prefix_append needle post

theorem filtered_eq (s : ClipzApp) :
    filtered s = if s.search.isEmpty then s.entries
      else s.entries.filter
        (fun e => containsSub (lowerChars e.content) (lowerChars s.search)) := rfl

theorem filtered_set_focus (s : ClipzApp) (v : Option Nat) :
    filtered { s with focused_index := v } = filtered s := rfl

/-! ## Claims -/

/-- C3: `filtered` is a pure function of the entries snapshot and the
search text: with an empty search text it is the snapshot itself, and
otherwise it keeps exactly the entries whose content contains the search
text as a case-insensitive substring, in original order (it is a sublist
of the snapshot). -/
theorem filtered_spec (s : ClipzApp) :
    (s.search = "" → filtered s = s.entries) ∧
    (filtered s).Sublist s.entries ∧
    (∀ e, e ∈ filtered s ↔ e ∈ s.entries ∧
      ∃ pre post, lowerChars e.content = pre ++ lowerChars s.search ++ post) := by
  refine ⟨?_, ?_, ?_⟩
  · intro h
    rw [filtered_eq, if_pos ((String.isEmpty_iff s.search).mpr h)]
  · rw [filtered_eq]
    split
    · exact List.Sublist.refl _
    · exact List.filter_sublist _
  · intro e
    rw [filtered_eq]
    by_cases h : s.search.isEmpty
    · rw [if_pos h]
      rw [String.isEmpty_iff] at h
      constructor
      · intro he
        refine ⟨he, lowerChars e.content, [], ?_⟩
        simp [h, lowerChars]
      · exact fun he => he.1
    · rw [if_neg h, List.mem_filter, containsSub_iff]

/-- A concrete two-entry state with an empty search text. -/
def c3App : ClipzApp :=
  { backend := true,
    entries := [⟨1, "Hello", 0, .text, true⟩, ⟨2, "world", 5, .text, false⟩],
    search := "", focused_index := none }

/-- C3 witness: with an empty search text the filtered view of a concrete
two-entry snapshot is that snapshot. -/
theorem filtered_spec_witness :
    c3App.search = "" ∧ filtered c3App = c3App.entries :=
  ⟨rfl, (filtered_spec c3App).1 rfl⟩

/-- C9: with no backend attached, `select_entry`, `remove` and `clear`
leave the whole view state unchanged and submit no command. -/
theorem no_backend_noop (s : ClipzApp) (id : Nat) (h : s.backend = false) :
    select_entry s id = (s, []) ∧ remove s id = (s, []) ∧ clear s = (s, []) := by
  unfold select_entry remove clear
  rw [h]
  simp

/-- A concrete state with no backend attached. -/
def c9App : ClipzApp :=
  { backend := false, entries := [⟨1, "a", 0, .text, true⟩],
    search := "", focused_index := some 0 }

/-- C9 witness: a concrete backend-less state is untouched by all three
mutating operations. -/
theorem no_backend_noop_witness :
    c9App.backend = false ∧
    (select_entry c9App 7 = (c9App, []) ∧ remove c9App 7 = (c9App, []) ∧
     clear c9App = (c9App, [])) :=
  ⟨rfl, no_backend_noop c9App 7 rfl⟩

/-- C4: with a backend attached, `remove id` keeps exactly the entries
whose id differs, in their original order (a sublist of the snapshot),
and submits `remove-entry:<id>` followed by `get-entries`. -/
theorem remove_spec (s : ClipzApp) (id : Nat) (h : s.backend = true) :
    ((remove s id).1.entries).Sublist s.entries ∧
    (∀ e, e ∈ (remove s id).1.entries ↔ e ∈ s.entries ∧ e.id ≠ id) ∧
    (remove s id).2 = ["remove-entry:" ++ toString id, "get-entries"] := by
  unfold remove
  rw [h]
  refine ⟨List.filter_sublist _, ?_, rfl⟩
  intro e
  show e ∈ s.entries.filter (fun e => e.id != id) ↔ _
  rw [List.mem_filter]
  simp [bne_iff_ne]

/-- A concrete three-entry state mirroring the spec's remove scenario. -/
def c4App : ClipzApp :=
  { backend := true,
    entries := [⟨1, "a", 0, .text, true⟩, ⟨2, "b", 0, .text, false⟩,
      ⟨3, "c", 0, .text, false⟩],
    search := "", focused_index := none }

/-- C4 witness: `remove 2` on ids `[1, 2, 3]` satisfies the proved
description at a concrete input. -/
theorem remove_spec_witness :
    c4App.backend = true ∧
    (((remove c4App 2).1.entries).Sublist c4App.entries ∧
     (∀ e, e ∈ (remove c4App 2).1.entries ↔ e ∈ c4App.entries ∧ e.id ≠ 2) ∧
     (remove c4App 2).2 = ["remove-entry:" ++ toString 2, "get-entries"]) :=
  ⟨rfl, remove_spec c4App 2 rfl⟩

/-- The spec scenario for C4: `remove 2` on `[id 1, id 2, id 3]` leaves
`[id 1, id 3]` and puts `remove-entry:2` then `get-entries` on the wire. -/
theorem remove_scenario :
    remove c4App 2
      = ({ c4App with
            entries := [⟨1, "a", 0, .text, true⟩, ⟨3, "c", 0, .text, false⟩] },
         ["remove-entry:2", "get-entries"]) := by
  decide

/-- C5: with a backend attached, `clear` immediately collapses the local
snapshot to the (unique) current entry when one exists and to the empty
list otherwise, and submits `clear` followed by `get-entries`. -/
theorem clear_spec (s : ClipzApp) (h : s.backend = true) :
    (clear s).2 = ["clear", "get-entries"] ∧
    ((∀ e ∈ s.entries, e.is_current = false) → (clear s).1.entries = []) ∧
    (∀ e, e ∈ s.entries → e.is_current = true →
      (∀ e2, e2 ∈ s.entries → e2.is_current = true → e2 = e) →
      (clear s).1.entries = [e]) := by
  unfold clear
  rw [h]
  cases hf : s.entries.find? (fun e => e.is_current) with
  | none =>
    rw [List.find?_eq_none] at hf
    refine ⟨rfl, fun _ => rfl, ?_⟩
    intro e he hcur _
    exact absurd hcur (by simpa using hf e he)
  | some a =>
    have ha := List.find?_some hf
    have hmem := List.mem_of_find?_eq_some hf
    refine ⟨rfl, ?_, ?_⟩
    · intro hall
      exact absurd ha (by simp [hall a hmem])
    · intro e _ _ huniq
      have : a = e := huniq a hmem ha
      simp [this]

/-- A concrete state mirroring the spec's clear scenario. -/
def c5App : ClipzApp :=
  { backend := true,
    entries := [⟨1, "a", 0, .text, true⟩, ⟨2, "b", 0, .text, false⟩],
    search := "", focused_index := none }

/-- C5 witness: on the spec's clear scenario the proved description holds
at a concrete input. -/
theorem clear_spec_witness :
    c5App.backend = true ∧
    ((clear c5App).2 = ["clear", "get-entries"] ∧
     ((∀ e ∈ c5App.entries, e.is_current = false) → (clear c5App).1.entries = []) ∧
     (∀ e, e ∈ c5App.entries → e.is_current = true →
       (∀ e2, e2 ∈ c5App.entries → e2.is_current = true → e2 = e) →
       (clear c5App).1.entries = [e])) :=
  ⟨rfl, clear_spec c5App rfl⟩

/-- The spec scenario for C5: `clear` on `[id 1 current, id 2]` leaves
just the current entry before any backend response. -/
theorem clear_scenario :
    clear c5App
      = ({ c5App with entries := [⟨1, "a", 0, .text, true⟩] },
         ["clear", "get-entries"]) := by
  decide

theorem select_entry_eq (s : ClipzApp) (id : Nat) (h : s.backend = true) :
    select_entry s id =
      ({ s with entries :=
          s.entries.map (fun e => { e with is_current := e.id == id }) },
       ["select-entry:" ++ toString id, "get-entries"]) := by
  simp [select_entry, h, refresh_entries]

/-- C6: with a backend attached, `select_entry id` keeps the length of
the snapshot, the search text and the focus; positionally it keeps each
entry's id, content, timestamp and kind, and sets `is_current` exactly
on the entries whose id is the given one; it submits `select-entry:<id>`
followed by `get-entries`. -/
theorem select_entry_spec (s : ClipzApp) (id : Nat) (h : s.backend = true) :
    (select_entry s id).2 = ["select-entry:" ++ toString id, "get-entries"] ∧
    (select_entry s id).1.entries.length = s.entries.length ∧
    (select_entry s id).1.search = s.search ∧
    (select_entry s id).1.focused_index = s.focused_index ∧
    (∀ i (hi : i < s.entries.length) (hj : i < (select_entry s id).1.entries.length),
      ((select_entry s id).1.entries.get ⟨i, hj⟩).id = (s.entries.get ⟨i, hi⟩).id ∧
      ((select_entry s id).1.entries.get ⟨i, hj⟩).content
        = (s.entries.get ⟨i, hi⟩).content ∧
      ((select_entry s id).1.entries.get ⟨i, hj⟩).timestamp
        = (s.entries.get ⟨i, hi⟩).timestamp ∧
      ((select_entry s id).1.entries.get ⟨i, hj⟩).entry_type
        = (s.entries.get ⟨i, hi⟩).entry_type ∧
      (((select_entry s id).1.entries.get ⟨i, hj⟩).is_current = true
        ↔ (s.entries.get ⟨i, hi⟩).id = id)) := by
  rw [select_entry_eq s id h]
  dsimp only
  refine ⟨rfl, List.length_map _ _, rfl, rfl, ?_⟩
  intro i hi hj
  simp only [List.get_eq_getElem, List.getElem_map]
  exact ⟨trivial, trivial, trivial, trivial, beq_iff_eq⟩

/-- A concrete three-entry state for the select claims (entry 3 starts
out current). -/
def c6App : ClipzApp :=
  { backend := true,
    entries := [⟨1, "a", 0, .text, false⟩, ⟨2, "b", 0, .text, false⟩,
      ⟨3, "c", 0, .text, true⟩],
    search := "", focused_index := none }

/-- C6 witness: selecting id 2 on a concrete three-entry snapshot
satisfies the proved description. -/
theorem select_entry_spec_witness :
    c6App.backend = true ∧
    ((select_entry c6App 2).2 = ["select-entry:" ++ toString 2, "get-entries"] ∧
     (select_entry c6App 2).1.entries.length = c6App.entries.length ∧
     (select_entry c6App 2).1.search = c6App.search ∧
     (select_entry c6App 2).1.focused_index = c6App.focused_index ∧
     (∀ i (hi : i < c6App.entries.length)
        (hj : i < (select_entry c6App 2).1.entries.length),
       ((select_entry c6App 2).1.entries.get ⟨i, hj⟩).id
         = (c6App.entries.get ⟨i, hi⟩).id ∧
       ((select_entry c6App 2).1.entries.get ⟨i, hj⟩).content
         = (c6App.entries.get ⟨i, hi⟩).content ∧
       ((select_entry c6App 2).1.entries.get ⟨i, hj⟩).timestamp
         = (c6App.entries.get ⟨i, hi⟩).timestamp ∧
       ((select_entry c6App 2).1.entries.get ⟨i, hj⟩).entry_type
         = (c6App.entries.get ⟨i, hi⟩).entry_type ∧
       (((select_entry c6App 2).1.entries.get ⟨i, hj⟩).is_current = true
         ↔ (c6App.entries.get ⟨i, hi⟩).id = 2))) :=
  ⟨rfl, select_entry_spec c6App 2 rfl⟩

/-- C10: with a backend attached, after `select_entry id` an entry is
current exactly when its id is the given one; selecting an absent id
clears the flag everywhere; and with pairwise-distinct ids at most one
entry is current afterwards. -/
theorem select_entry_current_iff (s : ClipzApp) (id : Nat) (h : s.backend = true) :
    (∀ e, e ∈ (select_entry s id).1.entries → (e.is_current = true ↔ e.id = id)) ∧
    ((∀ e, e ∈ s.entries → e.id ≠ id) →
      ∀ e, e ∈ (select_entry s id).1.entries → e.is_current = false) ∧
    (s.entries.Pairwise (fun a b => a.id ≠ b.id) →
      ∀ e1 e2, e1 ∈ (select_entry s id).1.entries →
        e2 ∈ (select_entry s id).1.entries →
        e1.is_current = true → e2.is_current = true → e1 = e2) := by
  rw [select_entry_eq s id h]
  dsimp only
  have hmem : ∀ e, e ∈ s.entries.map (fun e => { e with is_current := e.id == id }) ↔
      ∃ a, a ∈ s.entries ∧ ({ a with is_current := a.id == id } : Entry) = e := by
    intro e
    exact List.mem_map
  refine ⟨?_, ?_, ?_⟩
  · intro e he
    obtain ⟨a, _, rfl⟩ := (hmem e).mp he
    exact beq_iff_eq
  · intro hnone e he
    obtain ⟨a, ha, rfl⟩ := (hmem e).mp he
    simpa using hnone a ha
  · intro hpw e1 e2 he1 he2 hc1 hc2
    obtain ⟨a, ha, rfl⟩ := (hmem e1).mp he1
    obtain ⟨b, hb, rfl⟩ := (hmem e2).mp he2
    have haid : a.id = id := by simpa using hc1
    have hbid : b.id = id := by simpa using hc2
    by_cases hab : a = b
    · rw [hab]
    · exact absurd (hbid ▸ haid)
        (List.Pairwise.forall (fun _ _ hr => (Ne.symm hr)) hpw ha hb hab)

/-- C10 witness: selecting the absent id 9 on the concrete snapshot
(where entry 3 was current) satisfies the proved description. -/
theorem select_entry_current_iff_witness :
    c6App.backend = true ∧
    ((∀ e, e ∈ (select_entry c6App 9).1.entries → (e.is_current = true ↔ e.id = 9)) ∧
     ((∀ e, e ∈ c6App.entries → e.id ≠ 9) →
       ∀ e, e ∈ (select_entry c6App 9).1.entries → e.is_current = false) ∧
     (c6App.entries.Pairwise (fun a b => a.id ≠ b.id) →
       ∀ e1 e2, e1 ∈ (select_entry c6App 9).1.entries →
         e2 ∈ (select_entry c6App 9).1.entries →
         e1.is_current = true → e2.is_current = true → e1 = e2)) :=
  ⟨rfl, select_entry_current_iff c6App 9 rfl⟩

theorem applyEntries_entries (s : ClipzApp) (data : List Entry) :
    (applyEntries s data).entries = data := by
  obtain ⟨b, es, sr, fi⟩ := s
  cases fi with
  | none => rfl
  | some idx =>
    unfold applyEntries
    dsimp only
    split <;> rfl

theorem focusOk_applyEntries (s : ClipzApp) (data : List Entry) :
    focusOk (applyEntries s data) = true := by
  obtain ⟨b, es, sr, fi⟩ := s
  cases fi with
  | none => rfl
  | some idx =>
    unfold applyEntries
    dsimp only
    by_cases hge : idx ≥ (filtered ⟨b, data, sr, some idx⟩).length
    · rw [if_pos hge]
      by_cases hemp : (filtered ⟨b, data, sr, some idx⟩).isEmpty
      · rw [if_pos hemp]
        rfl
      · rw [if_neg hemp]
        have hne : (filtered ⟨b, data, sr, some idx⟩) ≠ [] := by
          simpa [List.isEmpty_iff] using hemp
        have hpos : 0 < (filtered ⟨b, data, sr, some idx⟩).length :=
          List.length_pos.mpr hne
        show decide ((filtered ⟨b, data, sr, some idx⟩).length - 1
            < (filtered ⟨b, data, sr, some idx⟩).length) = true
        rw [decide_eq_true_eq]
        omega
    · rw [if_neg hge]
      show decide (idx < (filtered ⟨b, data, sr, some idx⟩).length) = true
      rw [decide_eq_true_eq]
      omega

theorem applyEntries_clamp (s : ClipzApp) (data : List Entry) (idx : Nat)
    (hfi : s.focused_index = some idx)
    (hge : (filtered { s with entries := data }).length ≤ idx) :
    (applyEntries s data).focused_index =
      (if (filtered { s with entries := data }).length = 0 then none
       else some ((filtered { s with entries := data }).length - 1)) := by
  obtain ⟨b, es, sr, fi⟩ := s
  cases hfi
  unfold applyEntries
  dsimp only at hge ⊢
  rw [if_pos hge]
  by_cases hf : (filtered ⟨b, data, sr, some idx⟩) = []
  · simp [List.isEmpty_iff, List.length_eq_zero, hf]
  · simp [List.isEmpty_iff, List.length_eq_zero, hf]

theorem filtered_select_length (b : Bool) (es : List Entry) (sr : String)
    (x y : Option Nat) (id : Nat) :
    (filtered ⟨b, es.map (fun e => { e with is_current := e.id == id }), sr, x⟩).length
      = (filtered ⟨b, es, sr, y⟩).length := by
  unfold filtered
  dsimp only
  by_cases hs : sr.isEmpty
  · rw [if_pos hs, if_pos hs, List.length_map]
  · rw [if_neg hs, if_neg hs, List.filter_map, List.length_map]
    congr 1

/-- C2 (amended): immediately after `poll_backend` applies an `Entries`
push the focused index is `None` or strictly below the filtered view's
length — a shrinking push clamps it to the last valid index, or to `None`
when the filtered view is empty — and `select_entry` preserves the
invariant; `remove` and `clear` do not re-validate the cursor. -/
theorem focus_invariant (s : ClipzApp) (data : List Entry) (id : Nat) :
    focusOk (applyEntries s data) = true ∧
    (∀ idx, s.focused_index = some idx →
      (filtered { s with entries := data }).length ≤ idx →
      (applyEntries s data).focused_index =
        (if (filtered { s with entries := data }).length = 0 then none
         else some ((filtered { s with entries := data }).length - 1))) ∧
    (focusOk s = true → focusOk (select_entry s id).1 = true) := by
  refine ⟨focusOk_applyEntries s data,
    fun idx hfi hge => applyEntries_clamp s data idx hfi hge, ?_⟩
  intro hok
  by_cases hb : s.backend = true
  · rw [select_entry_eq s id hb]
    obtain ⟨b, es, sr, fi⟩ := s
    cases fi with
    | none => rfl
    | some idx =>
      show decide (idx <
        (filtered ⟨b, es.map (fun e => { e with is_current := e.id == id }),
          sr, some idx⟩).length) = true
      rw [decide_eq_true_eq, filtered_select_length b es sr (some idx) (some idx) id]
      have := hok
      unfold focusOk at this
      dsimp only at this
      rw [decide_eq_true_eq] at this
      exact this
  · rw [Bool.not_eq_true] at hb
    have hid : select_entry s id = (s, []) := by
      unfold select_entry
      rw [hb]
      rfl
    rw [show (select_entry s id).1 = s from by rw [hid]]
    exact hok

/-- A concrete state with the cursor on the second of two entries. -/
def c2App : ClipzApp :=
  { backend := true,
    entries := [⟨1, "a", 0, .text, true⟩, ⟨2, "b", 0, .text, false⟩],
    search := "", focused_index := some 1 }

/-- C2 counterexample: on a two-entry snapshot with the cursor on index 1,
`remove 2` returns with the cursor still at 1 while the filtered view now
has length 1 — the invariant is broken immediately after a mutating call
returns. -/
theorem focus_invariant_cex :
    focusOk c2App = true ∧ (remove c2App 2).1.focused_index = some 1 ∧
    (filtered (remove c2App 2).1).length = 1 ∧
    focusOk (remove c2App 2).1 = false := by
  refine ⟨?_, ?_, ?_, ?_⟩ <;> decide

/-- C2 witness: the amended invariant instantiated on the concrete state,
with an empty `Entries` push (clamping the cursor to `None`) and a select
of id 1. -/
theorem focus_invariant_witness :
    (c2App.focused_index = some 1 ∧
     (filtered { c2App with entries := ([] : List Entry) }).length ≤ 1 ∧
     focusOk c2App = true) ∧
    (focusOk (applyEntries c2App []) = true ∧
     (applyEntries c2App []).focused_index =
       (if (filtered { c2App with entries := ([] : List Entry) }).length = 0 then none
        else some ((filtered { c2App with entries := ([] : List Entry) }).length - 1)) ∧
     focusOk (select_entry c2App 1).1 = true) :=
  ⟨⟨by decide, by decide, by decide⟩,
   (focus_invariant c2App [] 1).1,
   (focus_invariant c2App [] 1).2.1 1 (by decide) (by decide),
   (focus_invariant c2App [] 1).2.2 (by decide)⟩

theorem applyMessage_cmds (s : ClipzApp) (m : BackendMessage) :
    (applyMessage s m).2 = refreshCmds m := by
  cases m <;> rfl

theorem applyMessage_entries (s : ClipzApp) (m : BackendMessage) :
    some (applyMessage s m).1.entries =
      (match m with
        | .Entries d => some d
        | _ => some s.entries) := by
  cases m with
  | Entries d => exact congrArg some (applyEntries_entries s d)
  | SelectSuccess i => rfl
  | RemoveSuccess i => rfl
  | Success t => rfl
  | Ready => rfl
  | Unknown => rfl

theorem pollFold_entries (msgs : List BackendMessage) (s : ClipzApp)
    (cmds : List String) :
    some ((msgs.foldl pollStep (s, cmds)).1.entries)
      = lastEntriesFrom (some s.entries) msgs := by
  induction msgs generalizing s cmds with
  | nil => rfl
  | cons m ms ih =>
    rw [List.foldl_cons]
    unfold lastEntriesFrom
    rw [List.foldl_cons]
    have h1 : (pollStep (s, cmds) m).1 = (applyMessage s m).1 := rfl
    cases m with
    | Entries d =>
      have := ih (applyMessage s (.Entries d)).1 (cmds ++ (applyMessage s (.Entries d)).2)
      unfold lastEntriesFrom at this
      rw [show pollStep (s, cmds) (.Entries d)
          = ((applyMessage s (.Entries d)).1, cmds ++ (applyMessage s (.Entries d)).2)
          from rfl]
      rw [this]
      have hd : (applyMessage s (.Entries d)).1.entries = d := applyEntries_entries s d
      rw [hd]
    | SelectSuccess i =>
      exact ih s (cmds ++ refresh_entries)
    | RemoveSuccess i =>
      exact ih s (cmds ++ refresh_entries)
    | Success t =>
      exact ih s (cmds ++ refresh_entries)
    | Ready =>
      exact ih s (cmds ++ refresh_entries)
    | Unknown =>
      exact ih s (cmds ++ [])

theorem pollFold_cmds (msgs : List BackendMessage) (s : ClipzApp)
    (cmds : List String) :
    (msgs.foldl pollStep (s, cmds)).2 = cmds ++ msgs.flatMap refreshCmds := by
  induction msgs generalizing s cmds with
  | nil => simp
  | cons m ms ih =>
    rw [List.foldl_cons, List.flatMap_cons]
    rw [show pollStep (s, cmds) m
        = ((applyMessage s m).1, cmds ++ refreshCmds m) from by
      rw [← applyMessage_cmds s m]; rfl]
    rw [ih, List.append_assoc]

theorem lastEntriesFrom_match (msgs : List BackendMessage)
    (a : Option (List Entry)) :
    lastEntriesFrom a msgs =
      (match lastEntriesFrom none msgs with
        | some d => some d
        | none => a) := by
  induction msgs generalizing a with
  | nil => rfl
  | cons m ms ih =>
    cases m with
    | Entries d =>
      unfold lastEntriesFrom
      rw [List.foldl_cons, List.foldl_cons]
      dsimp only
      have h1 := ih (some d)
      unfold lastEntriesFrom at h1
      rw [h1]
      cases hms : (ms.foldl (fun a m => match m with
        | BackendMessage.Entries d => some d
        | _ => a) none) <;> rfl
    | SelectSuccess i => exact ih a
    | RemoveSuccess i => exact ih a
    | Success t => exact ih a
    | Ready => exact ih a
    | Unknown => exact ih a

/-- C8 (amended): with a backend attached, `poll_backend` drains the
queue and applies each message — the snapshot ends as the last `Entries`
payload (or stays put), each of `SelectSuccess`, `RemoveSuccess`,
`Success` and `Ready` submits a `get-entries` refresh, and `Unknown` is
ignored — and its boolean result reports whether any message was drained
(not whether the view state changed). -/
theorem poll_backend_spec (s : ClipzApp) (msgs : List BackendMessage)
    (h : s.backend = true) :
    ((poll_backend s msgs).2.2 = !msgs.isEmpty) ∧
    (some (poll_backend s msgs).1.entries = lastEntriesFrom (some s.entries) msgs) ∧
    ((poll_backend s msgs).2.1 = msgs.flatMap refreshCmds) ∧
    (∀ t, applyMessage t .Unknown = (t, [])) := by
  unfold poll_backend
  rw [h]
  exact ⟨rfl, pollFold_entries msgs s [], pollFold_cmds msgs s [], fun t => rfl⟩

/-- An empty concrete state with a backend attached. -/
def c8App : ClipzApp :=
  { backend := true, entries := [], search := "", focused_index := none }

/-- C8 counterexample: a queue holding one `Unknown` message makes
`poll_backend` return `true` although the view state is unchanged and no
command was submitted — the returned flag is not "whether anything
changed". -/
theorem poll_backend_spec_cex :
    (poll_backend c8App [BackendMessage.Unknown]).2.2 = true ∧
    (poll_backend c8App [BackendMessage.Unknown]).1 = c8App ∧
    (poll_backend c8App [BackendMessage.Unknown]).2.1 = [] := by
  refine ⟨?_, ?_, ?_⟩ <;> decide

/-- C8 witness: the amended description instantiated on a concrete state
and a one-message queue. -/
theorem poll_backend_spec_witness :
    c8App.backend = true ∧
    (((poll_backend c8App [BackendMessage.Ready]).2.2
        = !([BackendMessage.Ready] : List BackendMessage).isEmpty) ∧
     (some (poll_backend c8App [BackendMessage.Ready]).1.entries
        = lastEntriesFrom (some c8App.entries) [BackendMessage.Ready]) ∧
     ((poll_backend c8App [BackendMessage.Ready]).2.1
        = ([BackendMessage.Ready] : List BackendMessage).flatMap refreshCmds) ∧
     (∀ t, applyMessage t .Unknown = (t, []))) :=
  ⟨rfl, poll_backend_spec c8App [BackendMessage.Ready] rfl⟩

theorem applyOp_backend (s : ClipzApp) (o : UiOp) :
    (applyOp s o).backend = s.backend := by
  cases o with
  | sel id =>
    show (select_entry s id).1.backend = s.backend
    unfold select_entry
    split <;> rfl
  | rem id =>
    show (remove s id).1.backend = s.backend
    unfold remove
    split <;> rfl
  | clr =>
    show (clear s).1.backend = s.backend
    unfold clear
    split
    · dsimp only
      split <;> rfl
    · rfl

theorem foldEvents_backend (evs : List Event) (s : ClipzApp) :
    (evs.foldl eventStep s).backend = s.backend := by
  induction evs generalizing s with
  | nil => rfl
  | cons e es ih =>
    rw [List.foldl_cons, ih (eventStep s e)]
    cases e with
    | act o => exact applyOp_backend s o
    | push m => rfl

/-- C1: for every history of optimistic `select`/`remove`/`clear`
mutations interleaved with queued backend messages whose queue holds at
least one `Entries` push, once `poll_backend` drains all pending messages
the local snapshot is exactly the most recent `Entries` payload, in its
received order. -/
theorem eventual_consistency (s : ClipzApp) (evs : List Event) (d : List Entry)
    (hb : s.backend = true)
    (hd : lastEntriesPayload (pendingMessages evs) = some d) :
    (runEvents s evs).entries = d := by
  unfold runEvents
  have hb2 : (evs.foldl eventStep s).backend = true := by
    rw [foldEvents_backend evs s, hb]
  unfold poll_backend
  rw [hb2]
  have h1 := pollFold_entries (pendingMessages evs) (evs.foldl eventStep s) []
  have h2 := lastEntriesFrom_match (pendingMessages evs)
    (some (evs.foldl eventStep s).entries)
  unfold lastEntriesPayload at hd
  rw [hd] at h2
  dsimp only at h2
  rw [h2] at h1
  exact Option.some.inj h1

/-- A concrete two-entry state for the eventual-consistency witness. -/
def c1App : ClipzApp :=
  { backend := true,
    entries := [⟨1, "a", 0, .text, true⟩, ⟨2, "b", 0, .text, false⟩],
    search := "", focused_index := none }

/-- A history: a select, an `Entries` push, a clear, a `Ready` push. -/
def c1Events : List Event :=
  [Event.act (UiOp.sel 1), Event.push (BackendMessage.Entries [⟨4, "x", 0, .text, false⟩]),
   Event.act UiOp.clr, Event.push BackendMessage.Ready]

/-- C1 witness: on the concrete history the drained snapshot is the
pushed payload, every optimistic edit overwritten. -/
theorem eventual_consistency_witness :
    (c1App.backend = true ∧
     lastEntriesPayload (pendingMessages c1Events)
       = some [⟨4, "x", 0, .text, false⟩]) ∧
    (runEvents c1App c1Events).entries = [⟨4, "x", 0, .text, false⟩] :=
  ⟨⟨rfl, by decide⟩,
   eventual_consistency c1App c1Events [⟨4, "x", 0, .text, false⟩] rfl (by decide)⟩

/-- C7: a JSON object whose `type` tag is none of the recognized ones
decodes to the `Unknown` catch-all rather than failing; and the reader
pump delivers, for any sequence of successfully read lines, exactly the
decodable ones in order — a malformed or unknown-tagged line never stops
the lines after it from being decoded and delivered. -/
theorem decode_forward_compat :
    (∀ (fields : List (String × Json)) (tag : String),
      Json.getField (.obj fields) "type" = some (.str tag) →
      tag ∉ (["entries", "select-success", "remove-success", "success",
        "ready"] : List String) →
      decodeMessage (.obj fields) = some .Unknown) ∧
    (∀ lines : List String,
      pump_messages (lines.map LineResult.ok) = lines.filterMap decodeLine) := by
  constructor
  · intro fields tag hget hmem
    unfold decodeMessage
    rw [hget]
    dsimp only
    simp only [List.mem_cons, List.not_mem_nil, or_false, not_or] at hmem
    obtain ⟨h1, h2, h3, h4, h5⟩ := hmem
    rw [if_neg h1, if_neg h2, if_neg h3, if_neg h4, if_neg h5]
  · intro lines
    induction lines with
    | nil => rfl
    | cons l ls ih =>
      rw [List.map_cons, List.filterMap_cons,
        show pump_messages (LineResult.ok l :: ls.map LineResult.ok)
          = (match decodeLine l with
              | some msg => msg :: pump_messages (ls.map LineResult.ok)
              | none => pump_messages (ls.map LineResult.ok)) from rfl,
        ih]
      cases hl : decodeLine l <;> simp only [hl]

/-- C7 witness: the unrecognized tag `bogus` decodes to `Unknown`, and the
pump over an unknown-tagged line, a malformed line and a `ready` line is
the filtered decode of those lines. -/
theorem decode_forward_compat_witness :
    (Json.getField (.obj [("type", Json.str "bogus")]) "type"
       = some (Json.str "bogus") ∧
     ("bogus" : String) ∉ (["entries", "select-success", "remove-success",
       "success", "ready"] : List String)) ∧
    decodeMessage (.obj [("type", Json.str "bogus")]) = some .Unknown ∧
    pump_messages (["\x7b\"type\":\"bogus\"\x7d", "garbage",
        "\x7b\"type\":\"ready\"\x7d"].map LineResult.ok)
      = ["\x7b\"type\":\"bogus\"\x7d", "garbage",
          "\x7b\"type\":\"ready\"\x7d"].filterMap decodeLine :=
  ⟨⟨rfl, by decide⟩,
   decode_forward_compat.1 [("type", Json.str "bogus")] "bogus" rfl (by decide),
   decode_forward_compat.2 _⟩

/-- The spec's round-trip scenario: an unknown-tagged line then a
malformed line then a valid `ready` line deliver `Unknown` followed by
`Ready`. -/
theorem pump_scenario :
    pump_messages [LineResult.ok "\x7b\"type\":\"bogus\"\x7d",
      LineResult.ok "garbage", LineResult.ok "\x7b\"type\":\"ready\"\x7d"]
      = [BackendMessage.Unknown, BackendMessage.Ready] := by
  decide

end Clipz
